import Mathlib

/-!
Verification of the kern/humdrum core of the `omr` repository.

The data model and the pitch functions are shallow embeddings of
`src/kern/typing.py`.  The line/spine parser and the token decoder live in
`kern/humdrum.py`, which is not part of the available sources (only its tests
and the typing module are); those definitions are modelled from the spec and
are marked `Modelled from the spec:` in their doc comments.

Python exceptions are embedded as explicit error values: a function that can
raise returns `Except PyError`/`Except ParseError` instead.
-/

namespace Kern

/-- Exceptions raised by the functions of `src/kern/typing.py`:
`assertionError` for a failing `assert`, `valueError` for `ValueError`
(raised by `list.index` on a missing element and by the `Pitch(...)` enum
lookup on a value that is not a member). -/
inductive PyError where
  | assertionError
  | valueError
deriving DecidableEq, Repr

/-- Errors of the parser (`kern/humdrum.py`), per spec section 7.  All are
surfaced to Python callers as `ValueError`. -/
inductive ParseError where
  | headerMissing
  | topologyError
  | fieldCountMismatch
  | decodeError
deriving DecidableEq, Repr

/-- A member of the `Pitch` enum of `src/kern/typing.py`: its name (the
letter run, e.g. `"CC"` or `"bb"`) and its value `(octave_band, diatonic)`. -/
structure Pitch where
  name : String
  octave_band : Nat
  diatonic : Nat
deriving DecidableEq, Repr

/-- The 56 members of the `Pitch` enum, in source order
(src/kern/typing.py lines 7-70). -/
def pitchMembers : List Pitch := [
  ⟨"C", 3, 1⟩, ⟨"D", 3, 2⟩, ⟨"E", 3, 3⟩, ⟨"F", 3, 4⟩, ⟨"G", 3, 5⟩, ⟨"A", 3, 6⟩, ⟨"B", 3, 7⟩,
  ⟨"CC", 2, 1⟩, ⟨"DD", 2, 2⟩, ⟨"EE", 2, 3⟩, ⟨"FF", 2, 4⟩, ⟨"GG", 2, 5⟩, ⟨"AA", 2, 6⟩, ⟨"BB", 2, 7⟩,
  ⟨"CCC", 1, 1⟩, ⟨"DDD", 1, 2⟩, ⟨"EEE", 1, 3⟩, ⟨"FFF", 1, 4⟩, ⟨"GGG", 1, 5⟩, ⟨"AAA", 1, 6⟩, ⟨"BBB", 1, 7⟩,
  ⟨"CCCC", 0, 1⟩, ⟨"DDDD", 0, 2⟩, ⟨"EEEE", 0, 3⟩, ⟨"FFFF", 0, 4⟩, ⟨"GGGG", 0, 5⟩, ⟨"AAAA", 0, 6⟩, ⟨"BBBB", 0, 7⟩,
  ⟨"c", 4, 1⟩, ⟨"d", 4, 2⟩, ⟨"e", 4, 3⟩, ⟨"f", 4, 4⟩, ⟨"g", 4, 5⟩, ⟨"a", 4, 6⟩, ⟨"b", 4, 7⟩,
  ⟨"cc", 5, 1⟩, ⟨"dd", 5, 2⟩, ⟨"ee", 5, 3⟩, ⟨"ff", 5, 4⟩, ⟨"gg", 5, 5⟩, ⟨"aa", 5, 6⟩, ⟨"bb", 5, 7⟩,
  ⟨"ccc", 6, 1⟩, ⟨"ddd", 6, 2⟩, ⟨"eee", 6, 3⟩, ⟨"fff", 6, 4⟩, ⟨"ggg", 6, 5⟩, ⟨"aaa", 6, 6⟩, ⟨"bbb", 6, 7⟩,
  ⟨"cccc", 7, 1⟩, ⟨"dddd", 7, 2⟩, ⟨"eeee", 7, 3⟩, ⟨"ffff", 7, 4⟩, ⟨"gggg", 7, 5⟩, ⟨"aaaa", 7, 6⟩, ⟨"bbbb", 7, 7⟩]

/-- ASCII digit test, `[0-9]` of the clef regex. -/
def isAsciiDigit (c : Char) : Bool := 48 ≤ c.toNat && c.toNat ≤ 57

/-- ASCII uppercase test, `[A-Z]`. -/
def isAsciiUpper (c : Char) : Bool := 65 ≤ c.toNat && c.toNat ≤ 90

/-- ASCII lowercase test, `[a-z]`. -/
def isAsciiLower (c : Char) : Bool := 97 ≤ c.toNat && c.toNat ≤ 122

/-- ASCII letter test, `[a-zA-Z]` of the clef regex. -/
def isAsciiAlpha (c : Char) : Bool := isAsciiUpper c || isAsciiLower c

/-- Python `str.lower()` restricted to a single character.  All callers in
the source pass ASCII letters, on which this agrees with Python. -/
def asciiLower (c : Char) : Char :=
  if isAsciiUpper c then Char.ofNat (c.toNat + 32) else c

/-- The list `['c', 'd', 'e', 'f', 'g', 'a', 'b']` of
`pitch_from_note_and_octave` (src/kern/typing.py line 74). -/
def noteNames : List Char := ['c', 'd', 'e', 'f', 'g', 'a', 'b']

/-- Python `list.index`: the index of the first occurrence, `none` when the
element is absent (Python raises `ValueError` in that case). -/
def listIndex (c : Char) : List Char → Option Nat
  | [] => none
  | x :: rest => if x = c then some 0 else (listIndex c rest).map (· + 1)

/-- The enum lookup `Pitch((octave, index))`: the member of `pitchMembers`
with that value, `none` when the value is not a member (Python raises
`ValueError` in that case). -/
def pitchOfValue (octave idx : Nat) : Option Pitch :=
  pitchMembers.find? (fun m => m.octave_band == octave && m.diatonic == idx)

/-- `pitch_from_note_and_octave` (src/kern/typing.py lines 73-76):
looks the lowercased note letter up in `noteNames` (a missing letter makes
`list.index` raise `ValueError`, so the `assert index >= 0` on line 75 is
unreachable) and then evaluates `Pitch((octave, 1+index))`, which raises
`ValueError` when the pair is not an enum member. -/
def pitch_from_note_and_octave (note : Char) (octave : Nat) : Except PyError Pitch :=
  match listIndex (asciiLower note) noteNames with
  | none => .error .valueError
  | some index =>
    match pitchOfValue octave (1 + index) with
    | none => .error .valueError
    | some p => .ok p

/-- The match of `CLEF_RE = re.compile(r'^\*clef([a-zA-Z])([0-9])$')`
against a string (src/kern/typing.py line 79), on the underlying character
list.  Python's `$` matches at the end of the string or just before a single
trailing newline, hence the `rest = ['\n']` alternative. -/
def clefMatchL : List Char → Option (Char × Char)
  | '*' :: 'c' :: 'l' :: 'e' :: 'f' :: l :: d :: rest =>
    if isAsciiAlpha l && isAsciiDigit d && (rest = [] || rest = ['\n']) then
      some (l, d)
    else none
  | _ => none

/-- `CLEF_RE.match` on a string. -/
def clefMatch (s : String) : Option (Char × Char) := clefMatchL s.data

/-- `pitch_from_clef` (src/kern/typing.py lines 82-87): `assert m is not
None` raises `AssertionError` when the regex does not match; otherwise the
captured letter and digit (converted by `int`) feed
`pitch_from_note_and_octave`. -/
def pitch_from_clef (clef : String) : Except PyError Pitch :=
  match clefMatch clef with
  | none => .error .assertionError
  | some (l, d) => pitch_from_note_and_octave l (d.toNat - 48)

/-- The `Note` dataclass (src/kern/typing.py lines 127-139), with the same
field defaults. -/
structure Note where
  pitch : Pitch
  duration : Nat
  flats : Nat := 0
  sharps : Nat := 0
  starts_tie : Bool := false
  ends_tie : Bool := false
  starts_beam : Nat := 0
  ends_beam : Nat := 0
  is_gracenote : Bool := false
  has_left_beam : Bool := false
  has_right_beam : Bool := false
deriving DecidableEq, Repr

/-- The `Symbol` dataclass hierarchy (src/kern/typing.py lines 90-145) as a
closed variant type: `Clef`, `Key`, `Meter`, `Bar`, `Null`, `Rest`, `Note`,
`Chord`. -/
inductive Symbol where
  | clef (pitch : Pitch)
  | key (is_flats : Bool) (count : Nat)
  | meter (numerator denominator : Nat)
  | bar (symbol : String)
  | null
  | rest (duration : Nat)
  | note (n : Note)
  | chord (notes : List Note)
deriving DecidableEq, Repr

/-- Splitting a character list on a separator, as Python `str.split(sep)`:
always returns at least one (possibly empty) group. -/
def splitOnChar (sep : Char) : List Char → List (List Char)
  | [] => [[]]
  | c :: rest =>
    match splitOnChar sep rest with
    | [] => [[c]]
    | g :: gs => if c = sep then [] :: g :: gs else (c :: g) :: gs

/-- Longest digit prefix of a character list and the remainder. -/
def spanDigits : List Char → List Char × List Char
  | [] => ([], [])
  | c :: rest =>
    if isAsciiDigit c then
      let r := spanDigits rest
      (c :: r.1, r.2)
    else ([], c :: rest)

/-- Longest prefix of repetitions of `c` and the remainder. -/
def spanEq (c : Char) : List Char → List Char × List Char
  | [] => ([], [])
  | x :: rest =>
    if x = c then
      let r := spanEq c rest
      (x :: r.1, r.2)
    else ([], x :: rest)

/-- Decimal value of a digit list. -/
def digitsToNat (ds : List Char) : Nat :=
  ds.foldl (fun n c => 10 * n + (c.toNat - 48)) 0

/-- The `Pitch` enum member whose name is the run of `k` copies of letter
`c`, if any (the decode of a pitch letter run; unknown run lengths or
letters are a decode error, per spec section 3). -/
def pitchRunLookup (c : Char) (k : Nat) : Option Pitch :=
  pitchMembers.find? (fun m => m.name == String.mk (List.replicate k c))

/-- Modelled from the spec: the trailing-marker loop of the note grammar of
section 4.2 of `kern/humdrum.py` (absent from src/).  After duration and
pitch letters, zero or more accidental markers (`-` flat, `#` sharp, counts
accumulating) and beam markers (`L` increments `starts_beam`, `J` increments
`ends_beam`) follow.  The spec leaves the textual encoding of tie, grace and
left/right-beam markers open (section 9), so per its fail-closed rule any
other character is a decode error. -/
def noteMarks (n : Note) : List Char → Except ParseError Note
  | [] => .ok n
  | '-' :: rest => noteMarks { n with flats := n.flats + 1 } rest
  | '#' :: rest => noteMarks { n with sharps := n.sharps + 1 } rest
  | 'L' :: rest => noteMarks { n with starts_beam := n.starts_beam + 1 } rest
  | 'J' :: rest => noteMarks { n with ends_beam := n.ends_beam + 1 } rest
  | _ => .error .decodeError

/-- Modelled from the spec: the note decoder of section 4.2 of
`kern/humdrum.py` (absent from src/).  Leading digits are the duration (a
missing duration is a decode error), then one run of a repeated pitch letter
(case and repetition decode the register via the `Pitch` enum), then the
trailing markers of `noteMarks`. -/
def decodeNote (u : List Char) : Except ParseError Note :=
  let p1 := spanDigits u
  if p1.1 = [] then .error .decodeError
  else
    match p1.2 with
    | [] => .error .decodeError
    | c :: r2 =>
      let p2 := spanEq c r2
      match pitchRunLookup c (p2.1.length + 1) with
      | none => .error .decodeError
      | some p => noteMarks { pitch := p, duration := digitsToNat p1.1 } p2.2

/-- Modelled from the spec: the interpretation-token decoder of section 4.2
of `kern/humdrum.py` (absent from src/).  A token matching the clef regex
decodes to `Clef` through the pitch derivation of `src/kern/typing.py`; a
`*M<digits>/<digits>` token decodes to `Meter`.  The spec leaves the exact
key-signature token form open (section 9), so per its fail-closed rule any
other token is a decode error. -/
def decodeInterp (t : List Char) : Except ParseError Symbol :=
  match clefMatchL t with
  | some (l, d) =>
    match pitch_from_note_and_octave l (d.toNat - 48) with
    | .ok p => .ok (.clef p)
    | .error _ => .error .decodeError
  | none =>
    match t with
    | '*' :: 'M' :: r1 =>
      let pn := spanDigits r1
      if pn.1 = [] then .error .decodeError
      else
        match pn.2 with
        | '/' :: r2 =>
          let pd := spanDigits r2
          if pd.1 ≠ [] ∧ pd.2 = [] then
            .ok (.meter (digitsToNat pn.1) (digitsToNat pd.1))
          else .error .decodeError
        | _ => .error .decodeError
    | _ => .error .decodeError

/-- Modelled from the spec: decoding of a whitespace-free token by the
Lexical Decoder of section 4.2 of `kern/humdrum.py` (absent from src/):
`.` is `Null`; a token beginning with `=` is a `Bar` whose label is the
remaining text, retained verbatim; a token beginning with `*` is an
interpretation; leading digits followed by exactly `r` are a `Rest`;
otherwise the token must decode as a `Note`. -/
def decodeSingle (u : List Char) : Except ParseError Symbol :=
  if u = ['.'] then .ok .null
  else
    match u with
    | '=' :: rest => .ok (.bar (String.mk rest))
    | '*' :: _ => decodeInterp u
    | _ =>
      let p := spanDigits u
      if p.1 = [] then .error .decodeError
      else if p.2 = ['r'] then .ok (.rest (digitsToNat p.1))
      else
        match decodeNote u with
        | .ok n => .ok (.note n)
        | .error e => .error e

/-- Decoding every sub-token of a chord as a `Note`, failing if any
sub-token is not a well-formed note (spec section 4.2). -/
def decodeNotes : List (List Char) → Except ParseError (List Note)
  | [] => .ok []
  | u :: us =>
    match decodeNote u with
    | .error e => .error e
    | .ok n =>
      match decodeNotes us with
      | .error e => .error e
      | .ok ns => .ok (n :: ns)

/-- Modelled from the spec: the Lexical Decoder of section 4.2 of
`kern/humdrum.py` (absent from src/): a pure mapping from token text to
`Symbol`.  A token containing embedded whitespace-separated sub-tokens
decodes to `Chord` by decoding each sub-token as a `Note`; any other token
decodes through `decodeSingle`. -/
def decodeToken (t : List Char) : Except ParseError Symbol :=
  match splitOnChar ' ' t with
  | [] => .error .decodeError
  | [u] => decodeSingle u
  | u1 :: u2 :: us =>
    match decodeNotes (u1 :: u2 :: us) with
    | .error e => .error e
    | .ok ns => .ok (.chord ns)

/-- A Handler callback, recorded as an event.  Spine handles are the `Nat`
identities minted by the parser, in minting order (spec sections 2 and 6). -/
inductive Event where
  | open_spine (id : Nat)
  | close_spine (id : Nat)
  | branch_spine (src : Nat) (id : Nat)
  | merge_spines (src : Nat) (into : Nat)
  | append (id : Nat) (sym : Symbol)
deriving DecidableEq, Repr

/-- Whether an event is an `open_spine` call. -/
def Event.isOpen : Event → Bool
  | .open_spine _ => true
  | _ => false

/-- Whether an event is an `append` call. -/
def Event.isAppend : Event → Bool
  | .append _ _ => true
  | _ => false

/-- The tab-separated fields of a line (spec section 6). -/
def fields (l : List Char) : List (List Char) := splitOnChar '\t' l

/-- A comment line begins with the reserved marker `!` (spec section 6). -/
def isComment : List Char → Bool
  | '!' :: _ => true
  | _ => false

/-- An exclusive-interpretation header line: every tab field begins with the
declared-format marker `**` (spec sections 4.3 and 6). -/
def isHeader (l : List Char) : Bool :=
  (fields l).all (fun f =>
    match f with
    | '*' :: '*' :: _ => true
    | _ => false)

/-- A topology/control line: every tab field begins with `*`
(spec section 6). -/
def allStar (l : List Char) : Bool :=
  (fields l).all (fun f =>
    match f with
    | '*' :: _ => true
    | _ => false)

/-- Modelled from the spec: `apply_control` of the Spine Manager of
`kern/humdrum.py` (absent from src/), spec section 4.1, fused with the
Handler-callback order of section 4.3.  Columns (live spine, token) are
processed strictly left to right: `*` is a no-op, `*-` terminates
(`close_spine`), `*+` adds a fresh spine (`open_spine`), `*^` splits into
two fresh spines (two `branch_spine` calls), a contiguous run of two or more
`*v` merges into the first spine of the run (one `merge_spines` call per
other member; a run of fewer than two members is a topology error), `*x`
exchanges exactly two adjacent columns (an unpaired `*x` is a topology
error), and any other token beginning with `*` is decoded as an
interpretation and appended.  `mrg` carries the target of the `*v` run in
progress.  Returns the events, the next live spine list and the next fresh
handle. -/
def ctrl : List (Nat × List Char) → Nat → Option Nat →
    Except ParseError (List Event × List Nat × Nat)
  | [], fresh, _ => .ok ([], [], fresh)
  | (s, t) :: rest, fresh, mrg =>
    if t = ['*', 'v'] then
      match mrg with
      | some tgt =>
        match ctrl rest fresh (some tgt) with
        | .error e => .error e
        | .ok (evs, sps, f) => .ok (.merge_spines s tgt :: evs, sps, f)
      | none =>
        match rest with
        | (_, t2) :: _ =>
          if t2 = ['*', 'v'] then
            match ctrl rest fresh (some s) with
            | .error e => .error e
            | .ok (evs, sps, f) => .ok (evs, s :: sps, f)
          else .error .topologyError
        | [] => .error .topologyError
    else if t = ['*'] then
      match ctrl rest fresh none with
      | .error e => .error e
      | .ok (evs, sps, f) => .ok (evs, s :: sps, f)
    else if t = ['*', '-'] then
      match ctrl rest fresh none with
      | .error e => .error e
      | .ok (evs, sps, f) => .ok (.close_spine s :: evs, sps, f)
    else if t = ['*', '+'] then
      match ctrl rest (fresh + 1) none with
      | .error e => .error e
      | .ok (evs, sps, f) => .ok (.open_spine fresh :: evs, s :: fresh :: sps, f)
    else if t = ['*', '^'] then
      match ctrl rest (fresh + 2) none with
      | .error e => .error e
      | .ok (evs, sps, f) =>
        .ok (.branch_spine s fresh :: .branch_spine s (fresh + 1) :: evs,
          fresh :: (fresh + 1) :: sps, f)
    else if t = ['*', 'x'] then
      match rest with
      | (s2, t2) :: rest2 =>
        if t2 = ['*', 'x'] then
          match ctrl rest2 fresh none with
          | .error e => .error e
          | .ok (evs, sps, f) => .ok (evs, s2 :: s :: sps, f)
        else .error .topologyError
      | [] => .error .topologyError
    else
      match t with
      | '*' :: _ =>
        match decodeInterp t with
        | .error e => .error e
        | .ok sym =>
          match ctrl rest fresh none with
          | .error e => .error e
          | .ok (evs, sps, f) => .ok (.append s sym :: evs, s :: sps, f)
      | _ => .error .topologyError

/-- Modelled from the spec: delivery of the fields of one data line
(spec section 4.3, step 3): each field is decoded by the Lexical Decoder and
delivered through `Handler.append(spine, symbol)` left to right; a decode
error aborts the line (fields already decoded stay delivered). -/
def appendFields : List (Nat × List Char) → List Event × Option ParseError
  | [] => ([], none)
  | (s, tok) :: rest =>
    match decodeToken tok with
    | .error e => ([], some e)
    | .ok sym =>
      let r := appendFields rest
      (.append s sym :: r.1, r.2)

/-- Modelled from the spec: the `Active` state of the Parser of
`kern/humdrum.py` (absent from src/), spec section 4.3.  Per line: comment
lines (and blank lines, which the tests show are tolerated) are skipped;
topology lines go through `ctrl`; data lines must have exactly one field per
live spine (else `fieldCountMismatch`, with no field of the line delivered)
and are delivered through `appendFields`.  The first error aborts the
document; events already issued remain issued.  The end of input is reached
with no further calls, whether or not spines remain open (spec section 4.3,
`Done`).  The spec's look-ahead check that a topology line not leave zero
spines while data lines follow is not modelled; such data lines fail with
`fieldCountMismatch` instead. -/
def processLines : List (List Char) → List Nat → Nat → List Event × Option ParseError
  | [], _, _ => ([], none)
  | l :: rest, sps, fresh =>
    if l = [] ∨ isComment l then processLines rest sps fresh
    else if allStar l then
      if (fields l).length = sps.length then
        match ctrl (sps.zip (fields l)) fresh none with
        | .error e => ([], some e)
        | .ok (evs, sps2, fresh2) =>
          let r := processLines rest sps2 fresh2
          (evs ++ r.1, r.2)
      else ([], some .topologyError)
    else
      if (fields l).length = sps.length then
        match appendFields (sps.zip (fields l)) with
        | (evs, some e) => (evs, some e)
        | (evs, none) =>
          let r := processLines rest sps fresh
          (evs ++ r.1, r.2)
      else ([], some .fieldCountMismatch)

/-- Modelled from the spec: the `AwaitHeader` state of the Parser of
`kern/humdrum.py` (absent from src/), spec section 4.3: the first
non-comment line must be an exclusive-interpretation header, else the parse
fails with `headerMissing` ("no spines declared") and no Handler call is
issued.  On a header with `n` fields, `open_spine` is called once per
column, left to right, and the parser transitions to `Active`. -/
def awaitHeader : List (List Char) → List Event × Option ParseError
  | [] => ([], some .headerMissing)
  | l :: rest =>
    if isComment l then awaitHeader rest
    else if isHeader l then
      let n := (fields l).length
      let r := processLines rest (List.range n) n
      ((List.range n).map .open_spine ++ r.1, r.2)
    else ([], some .headerMissing)

/-- Modelled from the spec: the entry point `parse` of `kern/humdrum.py`
(absent from src/), spec section 6: the document is split into lines and
driven through the state machine.  Returns the Handler calls issued, in
order, and the error that aborted the parse, if any. -/
def parse (s : String) : List Event × Option ParseError :=
  awaitHeader (splitOnChar '\n' s.data)

instance instDecEqExcept {ε α : Type} [DecidableEq ε] [DecidableEq α] :
    DecidableEq (Except ε α) := fun a b =>
  match a, b with
  | .ok x, .ok y =>
    if h : x = y then isTrue (by rw [h]) else
      isFalse (fun he => by injection he; contradiction)
  | .ok _, .error _ => isFalse (fun he => Except.noConfusion he)
  | .error _, .ok _ => isFalse (fun he => Except.noConfusion he)
  | .error x, .error y =>
    if h : x = y then isTrue (by rw [h]) else
      isFalse (fun he => by injection he; contradiction)

/-- The letters `a`-`g` and `A`-`G` named by the claims about clef tokens. -/
def clefLetters : List Char := ['a', 'b', 'c', 'd', 'e', 'f', 'g', 'A', 'B', 'C', 'D', 'E', 'F', 'G']

/-- The digit characters `0`-`7` named by the claims about clef tokens. -/
def clefDigitChars : List Char := ['0', '1', '2', '3', '4', '5', '6', '7']

/-- The letter run of a pitch name: its letter and repetition count, if the
name is one repeated character. -/
def runOf (s : String) : Option (Char × Nat) :=
  match s.data with
  | [] => none
  | c :: rest => if rest.all (fun x => x == c) then some (c, rest.length + 1) else none

/-- Follows the claim wording (spec section 3): a run of `k` copies of an
uppercase letter decodes to register `4 - k` (a single letter is the central
band 3, each additional repetition one band lower), a run of `k` copies of a
lowercase letter to register `3 + k` (a single letter is the central band 4,
each additional repetition one band higher); run lengths outside the eight
registers are unknown. -/
def claimRegisterOfRun (c : Char) (k : Nat) : Option Nat :=
  if 1 ≤ k ∧ k ≤ 4 then
    if isAsciiUpper c then some (4 - k)
    else if isAsciiLower c then some (3 + k)
    else none
  else none

/-- Follows the claim wording (claim C10): a string of the exact form
`*clef<letter><digit>` with letter in `a`-`g` or `A`-`G` and digit in
`0`..`7`. -/
def clefExactForm (s : String) : Bool :=
  match s.data with
  | ['*', 'c', 'l', 'e', 'f', l, d] => noteNames.contains (asciiLower l) && d ∈ clefDigitChars
  | _ => false

/-- C1: for every token of the clef shape `*clef<letter><digit>` with letter
in `a`-`g` or `A`-`G` and digit `0`..`7`, `pitch_from_clef` returns exactly
the `Pitch` whose `octave_band` is the digit and whose diatonic index is the
1-based position of the lower-cased letter in `c,d,e,f,g,a,b`, i.e. it
agrees with `pitch_from_note_and_octave(letter, digit)`. -/
theorem clef_pitch_from_letter_digit :
    ∀ c ∈ clefLetters, ∀ d ∈ clefDigitChars,
      ∃ i p, listIndex (asciiLower c) noteNames = some i ∧
        pitch_from_clef (String.mk ['*', 'c', 'l', 'e', 'f', c, d]) = .ok p ∧
        pitch_from_note_and_octave c (d.toNat - 48) = .ok p ∧
        p.octave_band = d.toNat - 48 ∧ p.diatonic = 1 + i := by
  intro c hc d hd
  fin_cases hc <;> fin_cases hd <;> exact ⟨_, _, rfl, rfl, rfl, rfl, rfl⟩

/-- Witness for C1 at the concrete clef token `*clefG2`. -/
theorem clef_pitch_from_letter_digit_witness :
    ∃ i p, listIndex (asciiLower 'G') noteNames = some i ∧
      pitch_from_clef (String.mk ['*', 'c', 'l', 'e', 'f', 'G', '2']) = .ok p ∧
      pitch_from_note_and_octave 'G' ('2'.toNat - 48) = .ok p ∧
      p.octave_band = '2'.toNat - 48 ∧ p.diatonic = 1 + i :=
  clef_pitch_from_letter_digit 'G' (by decide) '2' (by decide)

/-- C2: every `Pitch` enum member is a pair `(octave_band, diatonic)` with
diatonic in `1..7` and bands covering all eight registers `0..7`; the
member's name is a letter run whose register follows the claim's rule
(single uppercase is band 3, single lowercase band 4, each extra uppercase
repetition one band lower, each extra lowercase repetition one band higher);
and the names are pairwise distinct, so every valid run maps to exactly one
register. -/
theorem pitch_register_encoding :
    (∀ m ∈ pitchMembers, 1 ≤ m.diatonic ∧ m.diatonic ≤ 7 ∧ m.octave_band ≤ 7) ∧
    (∀ b < 8, ∃ m ∈ pitchMembers, m.octave_band = b) ∧
    (∀ m ∈ pitchMembers,
      (runOf m.name).bind (fun r => claimRegisterOfRun r.1 r.2) = some m.octave_band) ∧
    (pitchMembers.map (fun m => m.name)).Nodup := by decide

/-- Witness for C2 at the concrete enum member `GG = (2, 5)`. -/
theorem pitch_register_encoding_witness :
    (1 ≤ (⟨"GG", 2, 5⟩ : Pitch).diatonic ∧ (⟨"GG", 2, 5⟩ : Pitch).diatonic ≤ 7 ∧
      (⟨"GG", 2, 5⟩ : Pitch).octave_band ≤ 7) ∧
    (runOf (⟨"GG", 2, 5⟩ : Pitch).name).bind (fun r => claimRegisterOfRun r.1 r.2) =
      some (⟨"GG", 2, 5⟩ : Pitch).octave_band :=
  ⟨pitch_register_encoding.1 ⟨"GG", 2, 5⟩ (by decide),
   pitch_register_encoding.2.2.1 ⟨"GG", 2, 5⟩ (by decide)⟩

/-- C3: the lexical decoder maps `8A` to `Note{pitch=A, duration=8}` with
all defaults, `8A-` to the same note with `flats=1`, `8A##` with
`sharps=2`, and `8A##LL` with `sharps=2, starts_beam=2`. -/
theorem note_token_decoding_examples :
    decodeToken ("8A".data) = .ok (.note { pitch := ⟨"A", 3, 6⟩, duration := 8 }) ∧
    decodeToken ("8A-".data) = .ok (.note { pitch := ⟨"A", 3, 6⟩, duration := 8, flats := 1 }) ∧
    decodeToken ("8A##".data) = .ok (.note { pitch := ⟨"A", 3, 6⟩, duration := 8, sharps := 2 }) ∧
    decodeToken ("8A##LL".data) =
      .ok (.note { pitch := ⟨"A", 3, 6⟩, duration := 8, sharps := 2, starts_beam := 2 }) := by
  decide

/-- C8: token decoding is pure and deterministic.  In this embedding both
the token decoder and `pitch_from_clef` are functions of the token text
alone (no ambient state), so two decodes of the same string are structurally
equal. -/
theorem decoding_deterministic :
    ∀ (t : List Char) (s : String),
      decodeToken t = decodeToken t ∧ pitch_from_clef s = pitch_from_clef s :=
  fun _ _ => ⟨rfl, rfl⟩

/-- C9: a `Note` built from only a pitch and a duration carries the source
defaults: no accidentals, no ties, no beams, not a grace note. -/
theorem note_defaults :
    ∀ (p : Pitch) (d : Nat),
      ({ pitch := p, duration := d } : Note).flats = 0 ∧
      ({ pitch := p, duration := d } : Note).sharps = 0 ∧
      ({ pitch := p, duration := d } : Note).starts_beam = 0 ∧
      ({ pitch := p, duration := d } : Note).ends_beam = 0 ∧
      ({ pitch := p, duration := d } : Note).starts_tie = false ∧
      ({ pitch := p, duration := d } : Note).ends_tie = false ∧
      ({ pitch := p, duration := d } : Note).is_gracenote = false ∧
      ({ pitch := p, duration := d } : Note).has_left_beam = false ∧
      ({ pitch := p, duration := d } : Note).has_right_beam = false :=
  fun _ _ => ⟨rfl, rfl, rfl, rfl, rfl, rfl, rfl, rfl, rfl⟩

theorem awaitHeader_missing :
    ∀ ls : List (List Char),
      (∀ l, ls.find? (fun l2 => !isComment l2) = some l → isHeader l = false) →
      awaitHeader ls = ([], some ParseError.headerMissing) := by
  intro ls
  induction ls with
  | nil => intro _; rfl
  | cons l rest ih =>
    intro h
    by_cases hc : isComment l = true
    · have hrest : ∀ l2, rest.find? (fun x => !isComment x) = some l2 → isHeader l2 = false := by
        intro l2 hl2
        apply h
        rwa [List.find?_cons_of_neg]
        simp [hc]
      simp [awaitHeader, hc, ih hrest]
    · have hl : isHeader l = false := by
        apply h
        rw [List.find?_cons_of_pos]
        simp [hc]
      simp [awaitHeader, hc, hl]

/-- C5: a document that is empty or whose first non-comment line is not an
exclusive-interpretation header fails with the header-missing error
(surfaced as a `ValueError` in Python) and issues no Handler calls. -/
theorem missing_header_fails :
    ∀ s : String,
      (∀ l, (splitOnChar '\n' s.data).find? (fun l2 => !isComment l2) = some l →
        isHeader l = false) →
      parse s = ([], some ParseError.headerMissing) :=
  fun _ h => awaitHeader_missing _ h

/-- Witness for C5 at the concrete document `8A` (a data line first). -/
theorem missing_header_fails_witness :
    parse "8A" = ([], some ParseError.headerMissing) :=
  missing_header_fails "8A" (by
    intro l hl
    rw [show (splitOnChar '\n' ("8A".data)).find? (fun l2 => !isComment l2) =
        some ("8A".data) from by decide] at hl
    cases hl
    decide)

/-- C6: a data line whose tab-separated field count differs from the number
of live spines makes parsing fail with the field-count-mismatch error, and
no field of that line is delivered to the Handler. -/
theorem field_count_mismatch_fails :
    ∀ (l : List Char) (ls : List (List Char)) (sps : List Nat) (fresh : Nat),
      ¬(l = [] ∨ isComment l = true) → allStar l = false →
      (fields l).length ≠ sps.length →
      processLines (l :: ls) sps fresh = ([], some ParseError.fieldCountMismatch) := by
  intro l ls sps fresh h1 h2 h3
  rw [processLines, if_neg h1, if_neg (by simp [h2]), if_neg h3]

/-- Witness for C6 at the concrete data line `8A<TAB>8B` over one live
spine. -/
theorem field_count_mismatch_fails_witness :
    processLines ["8A\t8B".data] [0] 1 = ([], some ParseError.fieldCountMismatch) :=
  field_count_mismatch_fails ("8A\t8B".data) [] [0] 1 (by decide) (by decide) (by decide)

theorem decodeInterp_ne_chord : ∀ t ns, decodeInterp t ≠ .ok (.chord ns) := by
  intro t ns h
  unfold decodeInterp at h
  repeat'
    first
      | simp_all
      | split at h

theorem decodeSingle_ne_chord : ∀ u ns, decodeSingle u ≠ .ok (.chord ns) := by
  intro u ns h
  unfold decodeSingle at h
  repeat'
    first
      | exact decodeInterp_ne_chord _ _ h
      | simp_all
      | split at h

theorem decodeNotes_cons_ne_nil :
    ∀ u us ns, decodeNotes (u :: us) = .ok ns → ns ≠ [] := by
  intro u us ns h hn
  subst hn
  unfold decodeNotes at h
  repeat' split at h
  all_goals simp_all

/-- C7: every `Chord` symbol produced by the decoder has a non-empty list
of notes. -/
theorem chord_notes_nonempty :
    ∀ (t : List Char) (notes : List Note),
      decodeToken t = .ok (.chord notes) → notes ≠ [] := by
  intro t notes h
  unfold decodeToken at h
  split at h
  · exact absurd h (by simp)
  · exact absurd h (decodeSingle_ne_chord _ _)
  · rename_i u1 u2 us
    split at h
    · exact absurd h (by simp)
    · rename_i ns hns
      injection h with h2
      injection h2 with h3
      subst h3
      exact decodeNotes_cons_ne_nil _ _ _ hns

/-- Witness for C7 at the concrete chord token `8A 8B`. -/
theorem chord_notes_nonempty_witness :
    decodeToken ("8A 8B".data) =
      .ok (.chord [{ pitch := ⟨"A", 3, 6⟩, duration := 8 },
        { pitch := ⟨"B", 3, 7⟩, duration := 8 }]) ∧
    ([{ pitch := ⟨"A", 3, 6⟩, duration := 8 },
      { pitch := ⟨"B", 3, 7⟩, duration := 8 }] : List Note) ≠ [] :=
  ⟨by decide,
   chord_notes_nonempty ("8A 8B".data)
     [{ pitch := ⟨"A", 3, 6⟩, duration := 8 },
      { pitch := ⟨"B", 3, 7⟩, duration := 8 }] (by decide)⟩

@[simp] theorem isOpen_open_spine (i : Nat) : (Event.open_spine i).isOpen = true := rfl

@[simp] theorem isOpen_close_spine (i : Nat) : (Event.close_spine i).isOpen = false := rfl

@[simp] theorem isOpen_branch_spine (s i : Nat) : (Event.branch_spine s i).isOpen = false := rfl

@[simp] theorem isOpen_merge_spines (s i : Nat) : (Event.merge_spines s i).isOpen = false := rfl

@[simp] theorem isOpen_append (i : Nat) (sym : Symbol) : (Event.append i sym).isOpen = false := rfl

theorem ctrl_nil (fresh : Nat) (mrg : Option Nat) :
    ctrl [] fresh mrg = .ok ([], [], fresh) := rfl

theorem ctrl_cons (s : Nat) (t : List Char) (rest : List (Nat × List Char))
    (fresh : Nat) (mrg : Option Nat) :
    ctrl ((s, t) :: rest) fresh mrg =
      (if t = ['*', 'v'] then
        match mrg with
        | some tgt =>
          match ctrl rest fresh (some tgt) with
          | .error e => .error e
          | .ok (evs, sps, f) => .ok (.merge_spines s tgt :: evs, sps, f)
        | none =>
          match rest with
          | (_, t2) :: _ =>
            if t2 = ['*', 'v'] then
              match ctrl rest fresh (some s) with
              | .error e => .error e
              | .ok (evs, sps, f) => .ok (evs, s :: sps, f)
            else .error .topologyError
          | [] => .error .topologyError
      else if t = ['*'] then
        match ctrl rest fresh none with
        | .error e => .error e
        | .ok (evs, sps, f) => .ok (evs, s :: sps, f)
      else if t = ['*', '-'] then
        match ctrl rest fresh none with
        | .error e => .error e
        | .ok (evs, sps, f) => .ok (.close_spine s :: evs, sps, f)
      else if t = ['*', '+'] then
        match ctrl rest (fresh + 1) none with
        | .error e => .error e
        | .ok (evs, sps, f) => .ok (.open_spine fresh :: evs, s :: fresh :: sps, f)
      else if t = ['*', '^'] then
        match ctrl rest (fresh + 2) none with
        | .error e => .error e
        | .ok (evs, sps, f) =>
          .ok (.branch_spine s fresh :: .branch_spine s (fresh + 1) :: evs,
            fresh :: (fresh + 1) :: sps, f)
      else if t = ['*', 'x'] then
        match rest with
        | (s2, t2) :: rest2 =>
          if t2 = ['*', 'x'] then
            match ctrl rest2 fresh none with
            | .error e => .error e
            | .ok (evs, sps, f) => .ok (evs, s2 :: s :: sps, f)
          else .error .topologyError
        | [] => .error .topologyError
      else
        match t with
        | '*' :: _ =>
          match decodeInterp t with
          | .error e => .error e
          | .ok sym =>
            match ctrl rest fresh none with
            | .error e => .error e
            | .ok (evs, sps, f) => .ok (.append s sym :: evs, s :: sps, f)
        | _ => .error .topologyError) := by
  cases mrg <;> cases rest <;> rfl

theorem ctrl_no_open :
    ∀ cols fresh mrg evs sps f,
      (∀ c ∈ cols, c.2 ≠ (['*', '+'] : List Char)) →
      ctrl cols fresh mrg = .ok (evs, sps, f) →
      evs.all (fun e => !e.isOpen) = true := by
  intro cols fresh mrg
  induction cols, fresh, mrg using ctrl.induct <;>
    intro evs sps f hplus hok <;>
    (first
      | rw [ctrl_nil] at hok
      | rw [ctrl_cons] at hok) <;>
    simp_all [List.forall_mem_cons] <;>
    (try obtain ⟨rfl, rfl, rfl⟩ := hok) <;>
    simp_all [List.forall_mem_cons]

theorem appendFields_no_open :
    ∀ cols, ((appendFields cols).1).all (fun e => !e.isOpen) = true := by
  intro cols
  induction cols with
  | nil => rfl
  | cons c rest ih =>
    obtain ⟨s, tok⟩ := c
    rw [appendFields]
    cases hd : decodeToken tok with
    | error e => simp
    | ok sym => simp_all

theorem processLines_no_open :
    ∀ ls sps fresh,
      (∀ l ∈ ls, (['*', '+'] : List Char) ∉ fields l) →
      ((processLines ls sps fresh).1).all (fun e => !e.isOpen) = true := by
  intro ls
  induction ls with
  | nil => intro sps fresh _; rfl
  | cons l rest ih =>
    intro sps fresh h
    have hl : (['*', '+'] : List Char) ∉ fields l := h l (List.mem_cons_self _ _)
    have hrest : ∀ l2 ∈ rest, (['*', '+'] : List Char) ∉ fields l2 :=
      fun l2 h2 => h l2 (List.mem_cons_of_mem _ h2)
    by_cases hskip : l = [] ∨ isComment l = true
    · rw [processLines, if_pos hskip]
      exact ih _ _ hrest
    · by_cases hstar : allStar l = true
      · by_cases hlen : (fields l).length = sps.length
        · rw [processLines, if_neg hskip, if_pos hstar, if_pos hlen]
          cases hctrl : ctrl (sps.zip (fields l)) fresh none with
          | error e => simp
          | ok trip =>
            obtain ⟨evs, sps2, fresh2⟩ := trip
            have hzip : ∀ c ∈ sps.zip (fields l), c.2 ≠ (['*', '+'] : List Char) := by
              intro c hc hceq
              obtain ⟨c1, c2⟩ := c
              exact hl (hceq ▸ (List.of_mem_zip hc).2)
            have h1 := ctrl_no_open _ _ _ _ _ _ hzip hctrl
            simp [List.all_append, h1, ih _ _ hrest]
        · rw [processLines, if_neg hskip, if_pos hstar, if_neg hlen]
          rfl
      · by_cases hlen : (fields l).length = sps.length
        · rw [processLines, if_neg hskip, if_neg hstar, if_pos hlen]
          have happ := appendFields_no_open (sps.zip (fields l))
          cases hres : appendFields (sps.zip (fields l)) with
          | mk evs err =>
            rw [hres] at happ
            cases err with
            | some e => simp [hres, happ]
            | none => simp [hres, List.all_append, happ, ih _ _ hrest]
        · rw [processLines, if_neg hskip, if_neg hstar, if_neg hlen]
          rfl

theorem awaitHeader_opens :
    ∀ ls hl,
      ls.find? (fun l => !isComment l) = some hl →
      isHeader hl = true →
      (∀ l ∈ ls, (['*', '+'] : List Char) ∉ fields l) →
      ∃ rest,
        (awaitHeader ls).1 = (List.range (fields hl).length).map Event.open_spine ++ rest ∧
        rest.all (fun e => !e.isOpen) = true := by
  intro ls
  induction ls with
  | nil => intro hl hfind _ _; simp [List.find?] at hfind
  | cons l rest ih =>
    intro hl hfind hhdr hplus
    have hrest : ∀ l2 ∈ rest, (['*', '+'] : List Char) ∉ fields l2 :=
      fun l2 h2 => hplus l2 (List.mem_cons_of_mem _ h2)
    by_cases hc : isComment l = true
    · rw [List.find?_cons_of_neg _ (by simp [hc])] at hfind
      have hres := ih hl hfind hhdr hrest
      rw [awaitHeader, if_pos hc]
      exact hres
    · rw [List.find?_cons_of_pos _ (by simp [hc])] at hfind
      injection hfind with h2
      subst h2
      rw [awaitHeader, if_neg hc, if_pos hhdr]
      exact ⟨_, rfl, processLines_no_open _ _ _ hrest⟩

/-- Counterexample to C4 as stated: the document `**kern\n*+` has a header
declaring one voice, but the `*+` add-spine control token makes parsing
issue a second `open_spine` call, so the total is not the header's count. -/
theorem header_opens_counterexample :
    (fields ("**kern".data)).length = 1 ∧
    parse "**kern\n*+" = ([Event.open_spine 0, Event.open_spine 1], none) := by
  decide

/-- C4 (amended): for every document whose first non-comment line is an
exclusive-interpretation header declaring `n` voices and whose lines contain
no `*+` add-spine control token, parsing issues exactly `n` `open_spine`
calls, in column order, and all of them occur before any `append` call (the
`n` header opens are the first events issued, and no later event is an
open). -/
theorem header_opens_exactly :
    ∀ (s : String) (hl : List Char),
      (splitOnChar '\n' s.data).find? (fun l => !isComment l) = some hl →
      isHeader hl = true →
      (∀ l ∈ splitOnChar '\n' s.data, (['*', '+'] : List Char) ∉ fields l) →
      ∃ rest,
        (parse s).1 = (List.range (fields hl).length).map Event.open_spine ++ rest ∧
        rest.all (fun e => !e.isOpen) = true :=
  fun _ hl hfind hhdr hplus => awaitHeader_opens _ hl hfind hhdr hplus

/-- Witness for C4 (amended) at the concrete two-voice document
`**kern\t**kern\n8A\t8B`. -/
theorem header_opens_exactly_witness :
    ∃ rest,
      (parse "**kern\t**kern\n8A\t8B").1 =
        (List.range (fields ("**kern\t**kern".data)).length).map Event.open_spine ++ rest ∧
      rest.all (fun e => !e.isOpen) = true :=
  header_opens_exactly "**kern\t**kern\n8A\t8B" ("**kern\t**kern".data)
    (by decide) (by decide) (by decide)

/-- Follows the amended claim wording: the strings on which
`pitch_from_clef` returns a `Pitch`: the exact clef form with a letter
whose lowercase is in `c..b` and a digit of value at most 7, optionally
followed by one trailing newline (which Python's `$` anchor tolerates). -/
def clefAccepted (s : String) : Bool :=
  match s.data with
  | ['*', 'c', 'l', 'e', 'f', l, d] =>
    noteNames.contains (asciiLower l) && (isAsciiDigit d && decide (d.toNat - 48 ≤ 7))
  | ['*', 'c', 'l', 'e', 'f', l, d, '\n'] =>
    noteNames.contains (asciiLower l) && (isAsciiDigit d && decide (d.toNat - 48 ≤ 7))
  | _ => false

theorem listIndex_isSome (c : Char) :
    ∀ l : List Char, (listIndex c l).isSome = true ↔ c ∈ l := by
  intro l
  induction l with
  | nil => simp [listIndex]
  | cons x rest ih =>
    by_cases h : x = c
    · simp [listIndex, h]
    · simp [listIndex, h, ih, Ne.symm h]

theorem listIndex_lt_length (c : Char) :
    ∀ (l : List Char) (i : Nat), listIndex c l = some i → i < l.length := by
  intro l
  induction l with
  | nil => intro i h; simp [listIndex] at h
  | cons x rest ih =>
    intro i h
    by_cases hx : x = c
    · simp [listIndex, hx] at h
      simp [← h]
    · simp only [listIndex, hx, if_false, Option.map_eq_some'] at h
      obtain ⟨j, hj, rfl⟩ := h
      have := ih j hj
      simp
      omega

theorem pitchMembers_band_le : ∀ m ∈ pitchMembers, m.octave_band ≤ 7 := by decide

theorem pitchOfValue_isSome :
    ∀ oct < 8, ∀ i < 7, (pitchOfValue oct (1 + i)).isSome = true := by decide

theorem pitchOfValue_none_of_big (oct idx : Nat) (h : 7 < oct) :
    pitchOfValue oct idx = none := by
  rw [pitchOfValue, List.find?_eq_none]
  intro m hm
  have hband := pitchMembers_band_le m hm
  simp only [Bool.and_eq_true, beq_iff_eq, not_and]
  intro h1 _
  omega

theorem alpha_of_mem (l : Char) (h : asciiLower l ∈ noteNames) :
    isAsciiAlpha l = true := by
  by_cases hu : isAsciiUpper l = true
  · simp [isAsciiAlpha, hu]
  · have heq : asciiLower l = l := by simp [asciiLower, hu]
    rw [heq] at h
    fin_cases h <;> decide

/-- Counterexample to C10 as stated: `*clefg2<NEWLINE>` is not of the exact
form `*clef<letter><digit>`, yet `pitch_from_clef` returns a `Pitch` on it
instead of raising, because Python's `$` anchor also matches just before a
single trailing newline. -/
theorem clef_trailing_newline_counterexample :
    clefExactForm "*clefg2\n" = false ∧
    pitch_from_clef "*clefg2\n" = .ok ⟨"GG", 2, 5⟩ := by decide

/-- C10 (amended): `pitch_from_clef` returns a `Pitch` exactly for strings
of the form `*clef<letter><digit>` with letter in `a`-`g`/`A`-`G` and digit
`0`..`7`, optionally followed by one trailing newline (Python's `$` anchor
also matches just before a final newline); for every other string it
raises: an `AssertionError` when the string does not match the clef regex,
and a `ValueError` (from the list/enum lookups, the `index >= 0` assertion
being unreachable) when the letter is outside `a`-`g`/`A`-`G` or the digit
is `8` or `9`. -/
theorem clef_totality :
    ∀ s : String,
      (∀ p, pitch_from_clef s = .ok p → clefAccepted s = true) ∧
      (clefAccepted s = true → ∃ p, pitch_from_clef s = .ok p) ∧
      (clefMatch s = none → pitch_from_clef s = .error .assertionError) ∧
      (∀ l d, clefMatch s = some (l, d) →
        ¬(asciiLower l ∈ noteNames ∧ d.toNat - 48 ≤ 7) →
        pitch_from_clef s = .error .valueError) := by
  intro s
  refine ⟨?_, ?_, ?_, ?_⟩
  · intro p hok
    simp only [pitch_from_clef] at hok
    split at hok
    · exact absurd hok (by simp)
    · next l d hcm =>
      simp only [pitch_from_note_and_octave] at hok
      split at hok
      · exact absurd hok (by simp)
      · next i hidx =>
        split at hok
        · exact absurd hok (by simp)
        · next p2 hpv =>
          have hcmem : asciiLower l ∈ noteNames :=
            (listIndex_isSome _ _).mp (by rw [hidx]; rfl)
          have hmem := List.mem_of_find?_eq_some hpv
          have hprop := List.find?_some hpv
          simp only [Bool.and_eq_true, beq_iff_eq] at hprop
          have hoct : d.toNat - 48 ≤ 7 := by
            have := pitchMembers_band_le p2 hmem
            omega
          have h55 : d.toNat ≤ 55 := by omega
          have hcmem2 : noteNames.contains (asciiLower l) = true := by simpa using hcmem
          have hcm2 : clefMatchL s.data = some (l, d) := hcm
          simp only [clefMatchL] at hcm2
          split at hcm2
          · next l0 d0 rest0 hdata =>
            split at hcm2
            · next hcond =>
              injection hcm2 with hpair
              injection hpair with hl hd
              subst hl
              subst hd
              simp only [Bool.and_eq_true, Bool.or_eq_true, decide_eq_true_eq] at hcond
              obtain ⟨⟨halpha, hdigit⟩, hrest⟩ := hcond
              rcases hrest with hrest | hrest <;>
                (subst hrest;
                 simp [clefAccepted, hdata, hcmem, hcmem2, hdigit, hoct, h55])
            · exact absurd hcm2 (by simp)
          · exact absurd hcm2 (by simp)
  · intro hacc
    simp only [clefAccepted] at hacc
    split at hacc
    case h_3 => exact absurd hacc (by simp)
    all_goals
      next l d hdata =>
        simp only [Bool.and_eq_true, decide_eq_true_eq] at hacc
        obtain ⟨hmem, hdigit, hoct⟩ := hacc
        have hmem2 : asciiLower l ∈ noteNames := by simpa using hmem
        obtain ⟨i, hi⟩ : ∃ i, listIndex (asciiLower l) noteNames = some i :=
          Option.isSome_iff_exists.mp ((listIndex_isSome _ _).mpr hmem2)
        have hilt : i < 7 := by
          have := listIndex_lt_length (asciiLower l) noteNames i hi
          simpa [noteNames] using this
        obtain ⟨p, hp⟩ : ∃ p, pitchOfValue (d.toNat - 48) (1 + i) = some p :=
          Option.isSome_iff_exists.mp (pitchOfValue_isSome (d.toNat - 48) (by omega) i hilt)
        refine ⟨p, ?_⟩
        simp [pitch_from_clef, clefMatch, clefMatchL, hdata, alpha_of_mem l hmem2,
          hdigit, pitch_from_note_and_octave, hi, hp]
  · intro h
    simp [pitch_from_clef, h]
  · intro l d hm hcond
    simp only [pitch_from_clef, hm]
    cases hidx : listIndex (asciiLower l) noteNames with
    | none => simp [pitch_from_note_and_octave, hidx]
    | some i =>
      have hcmem : asciiLower l ∈ noteNames :=
        (listIndex_isSome _ _).mp (by rw [hidx]; rfl)
      have hgt : 7 < d.toNat - 48 :=
        Nat.lt_of_not_le (fun hle => hcond ⟨hcmem, hle⟩)
      simp [pitch_from_note_and_octave, hidx, pitchOfValue_none_of_big _ _ hgt]

/-- Witness for C10 (amended) at the concrete non-clef letter `q`: the
string `*clefq5` matches the regex but raises `ValueError`. -/
theorem clef_totality_witness :
    pitch_from_clef "*clefq5" = .error .valueError :=
  (clef_totality "*clefq5").2.2.2 'q' '5' (by decide) (by decide)

end Kern
